import Mathlib

/-!
Verification of the decision-support optimizer core of the
`observable-control-rooms-suite` repository
(`decision-intelligence-live/app.py`): the eligibility scorer
`score_actions`, the bounded 0/1 knapsack selector `knapsack_select`,
and the policy relaxation search `counterfactual`.

Real-valued quantities (scores, risks, ROI, policy thresholds) are
embedded as exact rationals (`Rat`); Python integers are `Nat`/`Int`.
`numpy`'s `astype(int)` truncates toward zero, embedded as `truncToInt`.
Python's insertion-ordered `dict` is embedded as an association list in
which updating an existing key keeps its position (`setCell`), so
iteration over `.items()` visits entries in the same order as the
source.  `pandas.sort_values` is embedded as an insertion sort agreeing
with the requested comparator (the source's quicksort is only specified
up to the comparator).  The source keeps `dp` and `parent` as two
dictionaries updated in lockstep at exactly the same keys; they are
embedded as a single map into `Cell` carrying both the value and the
back-pointer.
-/

-- The `Rat` arithmetic operations are `@[irreducible]` in Batteries,
-- which blocks kernel evaluation of concrete instances; restore the
-- default reducibility locally so that `decide` can evaluate them.
attribute [local semireducible] Rat.add Rat.sub Rat.mul Rat.inv

namespace DecisionIntel

/-- A raw candidate action (one row of the generated dataframe):
`id`, `cost_clp` (non-negative integer CLP), `benefit_score`, `risk`,
`effort_days`, `confidence`, and the derived `roi`. -/
structure Candidate where
  id : String
  cost_clp : Nat
  benefit_score : Rat
  risk : Rat
  effort_days : Nat
  confidence : Rat
  roi : Rat
deriving DecidableEq

/-- The policy record (`@dataclass Policy`). -/
structure Policy where
  budget : Int
  max_risk : Rat
  min_roi : Rat
  max_actions : Int
  risk_penalty : Rat
deriving DecidableEq

/-- `clamp(x, lo, hi) = max(lo, min(hi, x))`. -/
def clamp (x lo hi : Rat) : Rat := max lo (min hi x)

/-- A candidate together with its computed `score` and `eligible` columns. -/
structure ScoredCandidate where
  cand : Candidate
  score : Rat
  eligible : Bool
deriving DecidableEq

/-- The per-row computation of `score_actions`:
`score = benefit * confidence - risk_penalty * risk - 0.25 * (effort_days / 20.0)`,
`eligible = (risk <= max_risk) & (roi >= min_roi)`. -/
def scoreCandidate (policy : Policy) (c : Candidate) : ScoredCandidate :=
  let effort_factor : Rat := (c.effort_days : Rat) / 20
  { cand := c
    score := c.benefit_score * c.confidence - policy.risk_penalty * c.risk
               - (1/4) * effort_factor
    eligible := decide (c.risk ≤ policy.max_risk) && decide (policy.min_roi ≤ c.roi) }

/-- Insertion of one element into a list sorted by the Boolean
comparator `le` (used to embed `pandas.sort_values`). -/
def insertBy (le : α → α → Bool) (a : α) : List α → List α
  | [] => [a]
  | b :: l => if le a b then a :: b :: l else b :: insertBy le a l

/-- Comparator-consistent sort embedding `pandas.sort_values`. -/
def insertionSortBy (le : α → α → Bool) : List α → List α
  | [] => []
  | a :: l => insertBy le a (insertionSortBy le l)

/-- Sort key of `score_actions`: by `eligible` descending, then `score`
descending. -/
def scoreOrder (a b : ScoredCandidate) : Bool :=
  if a.eligible = b.eligible then decide (b.score ≤ a.score) else a.eligible

/-- `score_actions(df, policy)`: compute `score` and `eligible` for every
row, then sort by `["eligible", "score"]` descending. -/
def score_actions (df : List Candidate) (policy : Policy) : List ScoredCandidate :=
  insertionSortBy scoreOrder (df.map (scoreCandidate policy))

/-- `numpy` `astype(int)` on a real value: truncation toward zero. -/
def truncToInt (q : Rat) : Int := q.num.tdiv q.den

/-- One cell of the sparse DP table: the best value reached at this
`(item count, discretized cost)` state, and the back-pointer
`(previous count, previous cost, item index)` recorded by the source in
the parallel `parent` dictionary (`none` only for the seeded root
`dp[0][0] = 0`). -/
structure Cell where
  value : Int
  parent : Option (Nat × Nat × Nat)
deriving DecidableEq

/-- One level `dp[k]` of the DP: an insertion-ordered association list
from discretized cost `b` to its cell. -/
abbrev Level := List (Nat × Cell)

/-- The DP table `dp`, one level per item count `0..max_items`. -/
abbrev DPTable := List Level

/-- `dp[k][b] = cell`, keeping the position of an existing key
(Python `dict` update semantics). -/
def setCell : Level → Nat → Cell → Level
  | [], b, cell => [(b, cell)]
  | (b', cell') :: rest, b, cell =>
      if b' = b then (b, cell) :: rest else (b', cell') :: setCell rest b cell

/-- The inner relaxation of the DP: given a reachable state `(k, b)`
holding `best`, try to extend it with item `idx` of discretized cost `c`
and scaled value `v`, writing `dp[k+1][b+c]` when within budget `B` and
an improvement. -/
def relax (B idx c : Nat) (v : Int) (k : Nat) (dp : DPTable) (bb : Nat × Cell) : DPTable :=
  let b := bb.1
  let best := bb.2.value
  let nb := b + c
  if nb > B then dp
  else
    let nv := best + v
    let lvl := dp.getD (k+1) []
    match lvl.lookup nb with
    | some cur =>
        if nv > cur.value then dp.set (k+1) (setCell lvl nb ⟨nv, some (k, b, idx)⟩)
        else dp
    | none => dp.set (k+1) (setCell lvl nb ⟨nv, some (k, b, idx)⟩)

/-- `for b, best in list(dp[k].items()): ...`: fold the relaxation over a
snapshot of level `k` (the updates touch only level `k+1`). -/
def stepLevel (B idx c : Nat) (v : Int) (dp : DPTable) (k : Nat) : DPTable :=
  (dp.getD k []).foldl (relax B idx c v k) dp

/-- `for k in range(max_items - 1, -1, -1): ...`: process the item at
every level, item count descending. -/
def stepItem (B mi idx c : Nat) (v : Int) (dp : DPTable) : DPTable :=
  ((List.range mi).reverse).foldl (stepLevel B idx c v) dp

/-- `for idx in range(n): ...`: the outer loop over items, carrying the
current index. -/
def runItems (B mi : Nat) : Nat → List (Nat × Int) → DPTable → DPTable
  | _, [], dp => dp
  | idx, cv :: rest, dp => runItems B mi (idx+1) rest (stepItem B mi idx cv.1 cv.2 dp)

/-- The seeded table: `dp[0][0] = 0`, all other levels empty. -/
def initTable (mi : Nat) : DPTable := [(0, ⟨0, none⟩)] :: List.replicate mi []

/-- The scan for the best cell over `k in range(1, max_items + 1)` and
all reachable costs, starting from `best_k, best_b, best_v = 0, 0, -1`
and keeping the first strict maximum. -/
def bestCell (dp : DPTable) (mi : Nat) : Nat × Nat × Int :=
  (List.range mi).foldl (fun acc k1 =>
      (dp.getD (k1+1) []).foldl (fun acc e =>
          if e.2.value > acc.2.2 then (k1+1, e.1, e.2.value) else acc) acc)
    (0, 0, -1)

/-- The back-pointer walk `while k > 0: pk, pb, idx = parent[k][b]; ...`,
collecting the chosen item indices.  Every back-pointer at level `k`
descends to level `k - 1`, so the walk from level `k` takes exactly `k`
steps; `reconstructAux` makes that structural with a fuel argument (the
`[]` fallbacks are unreachable for tables produced by the DP). -/
def reconstructAux (dp : DPTable) : Nat → Nat → Nat → List Nat
  | _, 0, _ => []
  | 0, _ + 1, _ => []
  | fuel + 1, k + 1, b =>
    match (dp.getD (k+1) []).lookup b with
    | none => []
    | some cell =>
      match cell.parent with
      | none => []
      | some (pk, pb, idx) => idx :: reconstructAux dp fuel pk pb

/-- The back-pointer walk from the cell `(k, b)`. -/
def reconstruct (dp : DPTable) (k b : Nat) : List Nat :=
  reconstructAux dp k k b

/-- The info record returned alongside the selection. -/
structure KInfo where
  note : Option String
  selected_count : Nat
  selected_cost_clp : Nat
  selected_score_sum : Rat
deriving DecidableEq

/-- `knapsack_select(df, budget, max_items)`: filter to eligible rows,
discretize costs to thousands and scale scores to integers, run the
sparse DP, scan for the best non-empty cell, reconstruct the chosen
items through the back-pointers, and return the matching rows sorted by
score descending. -/
def knapsack_select (df : List ScoredCandidate) (budget mi : Nat) :
    List ScoredCandidate × KInfo :=
  let candidates := df.filter (·.eligible)
  if candidates.isEmpty then
    ([], { note := some "no eligible actions", selected_count := 0,
           selected_cost_clp := 0, selected_score_sum := 0 })
  else
    let unit := 1000
    let costs := candidates.map (fun c => c.cand.cost_clp / unit)
    let values := candidates.map (fun c => truncToInt (c.score * 1000))
    let ids := candidates.map (fun c => c.cand.id)
    let B := budget / unit
    let dp := runItems B mi 0 (costs.zip values) (initTable mi)
    let best := bestCell dp mi
    if best.2.2 < 0 then
      ([], { note := some "no solution", selected_count := 0,
             selected_cost_clp := 0, selected_score_sum := 0 })
    else
      let chosen_idx := (reconstruct dp best.1 best.2.1).reverse
      let chosen_ids := chosen_idx.map (fun i => ids.getD i "")
      let selected := candidates.filter (fun c => chosen_ids.contains c.cand.id)
      (insertionSortBy (fun a b => decide (b.score ≤ a.score)) selected,
       { note := none
         selected_count := selected.length
         selected_cost_clp := (selected.map (fun c => c.cand.cost_clp)).sum
         selected_score_sum := (selected.map (fun c => c.score)).sum })

/-- A relaxation suggestion; the source's dictionary keys `from`/`to`
are the fields `fromVal`/`toVal`. -/
structure Suggestion where
  change : String
  fromVal : Rat
  toVal : Rat
  why : String
deriving DecidableEq

/-- The record returned by `counterfactual`. -/
structure CfResult where
  status : String
  message : String
  suggestions : List Suggestion
deriving DecidableEq

/-- The risk-ladder step sizes `[0.05, 0.10, 0.15, 0.20]`. -/
def risk_steps : List Rat := [5/100, 10/100, 15/100, 20/100]

/-- The ROI-ladder step sizes `[0.10, 0.20, 0.30, 0.40]`. -/
def roi_steps : List Rat := [10/100, 20/100, 30/100, 40/100]

/-- The probed policy of the risk ladder at a given step: a fresh copy
of the original policy with only `max_risk` changed. -/
def riskProbe (policy : Policy) (step : Rat) : Policy :=
  { policy with max_risk := clamp (policy.max_risk + step) (5/100) (95/100) }

/-- The probed policy of the ROI ladder at a given step: a fresh copy of
the original policy with only `min_roi` changed. -/
def roiProbe (policy : Policy) (step : Rat) : Policy :=
  { policy with min_roi := max 0 (policy.min_roi - step) }

/-- The number of eligible rows a policy yields on `df`. -/
def eligCount (df : List Candidate) (policy : Policy) : Nat :=
  ((score_actions df policy).filter (·.eligible)).length

/-- The first ladder of `counterfactual`: walk `risk_steps` in order and
record a suggestion at the first step whose probe (a fresh copy of the
original policy with only `max_risk` relaxed) reaches the target. -/
def riskSuggestions (policy : Policy) (df : List Candidate) (target : Int) : List Suggestion :=
  match risk_steps.find? (fun step =>
      target ≤ (eligCount df (riskProbe policy step) : Int)) with
  | some step =>
      [{ change := "max_risk", fromVal := policy.max_risk,
         toVal := (riskProbe policy step).max_risk,
         why := "Con max_risk relajado aparecen suficientes acciones elegibles." }]
  | none => []

/-- The second ladder of `counterfactual`: walk `roi_steps` in order and
record a suggestion at the first step whose probe (a fresh copy of the
original policy with only `min_roi` relaxed) reaches the target. -/
def roiSuggestions (policy : Policy) (df : List Candidate) (target : Int) : List Suggestion :=
  match roi_steps.find? (fun step =>
      target ≤ (eligCount df (roiProbe policy step) : Int)) with
  | some step =>
      [{ change := "min_roi", fromVal := policy.min_roi,
         toVal := (roiProbe policy step).min_roi,
         why := "Con min_roi relajado habilito más opciones sin tocar el riesgo." }]
  | none => []

/-- `counterfactual(policy, df)`: if the unmodified policy already
yields at least `target = max(3, min(policy.max_actions, 8))` eligible
rows, status `"ok"`.  Otherwise probe the two one-dimensional ladders
(each against a fresh copy of the original policy), keeping the first
successful step of each; status `"fix"` with the collected suggestions,
or `"warn"` with none.  (The numeric interpolation inside the source's
`why`/f-string messages is elided; no claim inspects it.) -/
def counterfactual (policy : Policy) (df : List Candidate) : CfResult :=
  let target : Int := max 3 (min policy.max_actions 8)
  if target ≤ (eligCount df policy : Int) then
    { status := "ok",
      message := "La política actual ya habilita suficientes acciones.",
      suggestions := [] }
  else
    let suggestions := riskSuggestions policy df target ++ roiSuggestions policy df target
    if suggestions.isEmpty then
      { status := "warn",
        message := "Con estos límites, el set es muy restrictivo. Sugiero relajar max_risk y/o min_roi más agresivamente.",
        suggestions := [] }
    else
      { status := "fix",
        message := "Para cumplir la política, recomiendo este ajuste mínimo:",
        suggestions := suggestions }

/-! ### Generic facts about the embedded sort -/

theorem insertBy_perm (le : α → α → Bool) (a : α) :
    ∀ l : List α, List.Perm (insertBy le a l) (a :: l) := by
  intro l
  induction l with
  | nil => exact List.Perm.refl _
  | cons b t ih =>
    simp only [insertBy]
    by_cases h : le a b = true
    · rw [if_pos h]
    · rw [if_neg h]
      exact (ih.cons b).trans (List.Perm.swap a b t)

theorem insertionSortBy_perm (le : α → α → Bool) :
    ∀ l : List α, List.Perm (insertionSortBy le l) l := by
  intro l
  induction l with
  | nil => exact List.Perm.refl _
  | cons a t ih =>
    simp only [insertionSortBy]
    exact (insertBy_perm le a _).trans (ih.cons a)

theorem mem_insertionSortBy (le : α → α → Bool) (l : List α) (x : α) :
    x ∈ insertionSortBy le l ↔ x ∈ l :=
  (insertionSortBy_perm le l).mem_iff

theorem mem_insertBy (le : α → α → Bool) (a : α) (l : List α) (x : α) :
    x ∈ insertBy le a l ↔ x = a ∨ x ∈ l := by
  rw [(insertBy_perm le a l).mem_iff, List.mem_cons]

theorem pairwise_insertBy (le : α → α → Bool)
    (htot : ∀ x y, le x y = true ∨ le y x = true)
    (htrans : ∀ x y z, le x y = true → le y z = true → le x z = true)
    (a : α) : ∀ l : List α, l.Pairwise (fun x y => le x y = true) →
      (insertBy le a l).Pairwise (fun x y => le x y = true) := by
  intro l
  induction l with
  | nil => intro _; simp [insertBy]
  | cons b t ih =>
    intro hp
    rw [List.pairwise_cons] at hp
    obtain ⟨hb, ht⟩ := hp
    simp only [insertBy]
    by_cases h : le a b = true
    · rw [if_pos h]
      refine List.pairwise_cons.mpr ⟨?_, List.pairwise_cons.mpr ⟨hb, ht⟩⟩
      intro x hx
      rcases List.mem_cons.mp hx with rfl | hx
      · exact h
      · exact htrans a b x h (hb x hx)
    · rw [if_neg h]
      refine List.pairwise_cons.mpr ⟨?_, ih ht⟩
      intro x hx
      rcases (mem_insertBy le a t x).mp hx with rfl | hx
      · rcases htot x b with h' | h'
        · exact absurd h' h
        · exact h'
      · exact hb x hx

theorem pairwise_insertionSortBy (le : α → α → Bool)
    (htot : ∀ x y, le x y = true ∨ le y x = true)
    (htrans : ∀ x y z, le x y = true → le y z = true → le x z = true) :
    ∀ l : List α, (insertionSortBy le l).Pairwise (fun x y => le x y = true) := by
  intro l
  induction l with
  | nil => simp [insertionSortBy]
  | cons a t ih => exact pairwise_insertBy le htot htrans a _ ih

/-! ### Facts about `score_actions` -/

theorem length_score_actions (df : List Candidate) (policy : Policy) :
    (score_actions df policy).length = df.length := by
  rw [score_actions, (insertionSortBy_perm _ _).length_eq, List.length_map]

theorem scoreCandidate_mem_score_actions (df : List Candidate) (policy : Policy)
    (c : Candidate) (hc : c ∈ df) : scoreCandidate policy c ∈ score_actions df policy := by
  rw [score_actions, mem_insertionSortBy]
  exact List.mem_map_of_mem _ hc

/-! ### Claim C5 -/

/-- C5: for every candidate `c` in the input, the scorer assigns
`score(c) = benefit * confidence - risk_penalty * risk - 0.25 * (effort_days / 20.0)`
and marks `c` eligible iff `risk ≤ policy.max_risk` and `roi ≥ policy.min_roi`. -/
theorem score_actions_row_spec (df : List Candidate) (policy : Policy) (c : Candidate)
    (hc : c ∈ df) :
    ∃ s ∈ score_actions df policy, s.cand = c ∧
      s.score = c.benefit_score * c.confidence - policy.risk_penalty * c.risk
                  - (1/4) * ((c.effort_days : Rat) / 20) ∧
      (s.eligible = true ↔ (c.risk ≤ policy.max_risk ∧ policy.min_roi ≤ c.roi)) := by
  refine ⟨scoreCandidate policy c, scoreCandidate_mem_score_actions df policy c hc,
    rfl, rfl, ?_⟩
  simp [scoreCandidate, Bool.and_eq_true, decide_eq_true_iff]

def wCand : Candidate :=
  { id := "W", cost_clp := 1000, benefit_score := 2, risk := 1/2, effort_days := 10,
    confidence := 3/4, roi := 1 }

def wPolicy : Policy :=
  { budget := 100000, max_risk := 3/4, min_roi := 1/2, max_actions := 5,
    risk_penalty := 9/10 }

/-- C5 witness: the row specification instantiated on a concrete candidate. -/
theorem score_actions_row_spec_witness :
    ∃ s ∈ score_actions [wCand] wPolicy, s.cand = wCand ∧
      s.score = wCand.benefit_score * wCand.confidence
                  - wPolicy.risk_penalty * wCand.risk
                  - (1/4) * ((wCand.effort_days : Rat) / 20) ∧
      (s.eligible = true ↔ (wCand.risk ≤ wPolicy.max_risk ∧ wPolicy.min_roi ≤ wCand.roi)) :=
  score_actions_row_spec [wCand] wPolicy wCand (by decide)

/-! ### Claim C4 -/

def pBad : Policy :=
  { budget := -1, max_risk := 1, min_roi := 0, max_actions := 0, risk_penalty := 1 }

def cBad : Candidate :=
  { id := "X", cost_clp := 1000, benefit_score := 1, risk := 2, effort_days := 1,
    confidence := 1, roi := 1 }

/-- C4 counterexample: with `budget ≤ 0`, `max_actions ≤ 0` and a risk
outside `[0, 1]` the code does not fail with any `InvalidPolicy` error —
no such error exists in the code — and the computation is performed in
full: the scorer returns the completely scored row. -/
theorem score_actions_validates_nothing :
    pBad.budget ≤ 0 ∧ pBad.max_actions ≤ 0 ∧ 1 < cBad.risk ∧
    score_actions [cBad] pBad = [scoreCandidate pBad cBad] := by decide

/-- C4 amended: the code performs no input validation: even when
`budget ≤ 0`, `max_items ≤ 0`, or some risk or confidence value lies
outside `[0, 1]`, the scorer processes every candidate and returns the
full scored list; no error is surfaced. -/
theorem score_actions_no_validation (df : List Candidate) (policy : Policy)
    (_hbad : policy.budget ≤ 0 ∨ policy.max_actions ≤ 0 ∨
      ∃ c ∈ df, c.risk < 0 ∨ 1 < c.risk ∨ c.confidence < 0 ∨ 1 < c.confidence) :
    (score_actions df policy).length = df.length ∧
      ∀ c ∈ df, scoreCandidate policy c ∈ score_actions df policy := by
  exact ⟨length_score_actions df policy,
    fun c hc => scoreCandidate_mem_score_actions df policy c hc⟩

/-- C4 witness: the no-validation theorem instantiated at an invalid
policy. -/
theorem score_actions_no_validation_witness :
    (score_actions [cBad] pBad).length = [cBad].length ∧
      ∀ c ∈ [cBad], scoreCandidate pBad c ∈ score_actions [cBad] pBad :=
  score_actions_no_validation [cBad] pBad (Or.inl (by decide))

/-! ### Claim C10 -/

/-- C10: the selection returned by `knapsack_select` is ordered by
descending score (in particular whenever it is non-empty). -/
theorem knapsack_select_sorted_desc (df : List ScoredCandidate) (budget mi : Nat) :
    ((knapsack_select df budget mi).1).Pairwise (fun a b => b.score ≤ a.score) := by
  have hsort : ∀ l : List ScoredCandidate,
      (insertionSortBy (fun a b => decide (b.score ≤ a.score)) l).Pairwise
        (fun a b => b.score ≤ a.score) := by
    intro l
    have h := pairwise_insertionSortBy
      (fun a b : ScoredCandidate => decide (b.score ≤ a.score))
      (fun x y => by
        rcases le_total y.score x.score with h | h
        · exact Or.inl (decide_eq_true h)
        · exact Or.inr (decide_eq_true h))
      (fun x y z hxy hyz =>
        decide_eq_true (le_trans (of_decide_eq_true hyz) (of_decide_eq_true hxy))) l
    exact h.imp (fun h => of_decide_eq_true h)
  simp only [knapsack_select]
  split
  · simp
  · split
    · simp
    · exact hsort _

/-! ### Facts about the relaxation ladders -/

theorem riskSuggestions_cases (policy : Policy) (df : List Candidate) (target : Int) :
    riskSuggestions policy df target = [] ∨
    ∃ step ∈ risk_steps,
      target ≤ (eligCount df (riskProbe policy step) : Int) ∧
      riskSuggestions policy df target =
        [{ change := "max_risk", fromVal := policy.max_risk,
           toVal := (riskProbe policy step).max_risk,
           why := "Con max_risk relajado aparecen suficientes acciones elegibles." }] := by
  unfold riskSuggestions
  split
  · next step h =>
      exact Or.inr ⟨step, List.mem_of_find?_eq_some h,
        by simpa using List.find?_some h, rfl⟩
  · next h => exact Or.inl rfl

theorem roiSuggestions_cases (policy : Policy) (df : List Candidate) (target : Int) :
    roiSuggestions policy df target = [] ∨
    ∃ step ∈ roi_steps,
      target ≤ (eligCount df (roiProbe policy step) : Int) ∧
      roiSuggestions policy df target =
        [{ change := "min_roi", fromVal := policy.min_roi,
           toVal := (roiProbe policy step).min_roi,
           why := "Con min_roi relajado habilito más opciones sin tocar el riesgo." }] := by
  unfold roiSuggestions
  split
  · next step h =>
      exact Or.inr ⟨step, List.mem_of_find?_eq_some h,
        by simpa using List.find?_some h, rfl⟩
  · next h => exact Or.inl rfl

/-! ### Claim C9 -/

/-- C9: the record returned by `counterfactual` has status exactly one of
`"ok"`, `"fix"`, `"warn"`; its suggestion list is non-empty iff the
status is `"fix"`; and it carries at most one suggestion per policy
field (so at most two in total). -/
theorem counterfactual_result_shape (policy : Policy) (df : List Candidate) :
    ((counterfactual policy df).status = "ok" ∨ (counterfactual policy df).status = "fix" ∨
      (counterfactual policy df).status = "warn") ∧
    ((counterfactual policy df).suggestions ≠ [] ↔ (counterfactual policy df).status = "fix") ∧
    ((counterfactual policy df).suggestions.filter
        (fun s => decide (s.change = "max_risk"))).length ≤ 1 ∧
    ((counterfactual policy df).suggestions.filter
        (fun s => decide (s.change = "min_roi"))).length ≤ 1 ∧
    (counterfactual policy df).suggestions.length ≤ 2 := by
  simp only [counterfactual]
  split
  · simp
  · rcases riskSuggestions_cases policy df (max 3 (min policy.max_actions 8)) with
      h1 | ⟨st1, hst1, hc1, h1⟩ <;>
    rcases roiSuggestions_cases policy df (max 3 (min policy.max_actions 8)) with
      h2 | ⟨st2, hst2, hc2, h2⟩ <;>
    rw [h1, h2] <;> simp

/-! ### Claim C6 -/

def cfCand (i : String) (r roi : Rat) : Candidate :=
  { id := i, cost_clp := 1000, benefit_score := 1, risk := r, effort_days := 1,
    confidence := 1, roi := roi }

def pOk : Policy :=
  { budget := 100000, max_risk := 1, min_roi := 0, max_actions := 3, risk_penalty := 0 }

def dfOk : List Candidate := [cfCand "A" (1/2) 1, cfCand "B" (1/2) 1, cfCand "C" (1/2) 1]

/-- C6 counterexample: on an input whose eligible count already reaches
the target `clamp(max_actions, 3, 8)`, the returned status is the
literal string `"ok"`, not `"sufficient"` as the claim states. -/
theorem counterfactual_status_is_ok_not_sufficient :
    max 3 (min pOk.max_actions 8) ≤ (eligCount dfOk pOk : Int) ∧
    (counterfactual pOk dfOk).status = "ok" ∧
    ¬((counterfactual pOk dfOk).status = "sufficient") := by decide

/-- C6 amended: when the eligible count under the unmodified policy is
already at least `max(3, min(policy.max_actions, 8))`, the relaxation
search returns status `"ok"` (the code's literal for the spec's
"sufficient") with no suggestions. -/
theorem counterfactual_enough_eligible (policy : Policy) (df : List Candidate)
    (h : max 3 (min policy.max_actions 8) ≤ (eligCount df policy : Int)) :
    (counterfactual policy df).status = "ok" ∧
    (counterfactual policy df).suggestions = [] := by
  simp only [counterfactual]
  rw [if_pos h]
  exact ⟨rfl, rfl⟩

/-- C6 witness: the amended theorem instantiated on a concrete input
with three eligible candidates and target three. -/
theorem counterfactual_enough_eligible_witness :
    (counterfactual pOk dfOk).status = "ok" ∧
    (counterfactual pOk dfOk).suggestions = [] :=
  counterfactual_enough_eligible pOk dfOk (by decide)

/-! ### Claim C8 -/

/-- C8: the relaxation search is pure (the embedding returns a fresh
record and cannot mutate its argument), and every suggestion it returns
was validated against a fresh copy of the original policy with only its
own field changed — in particular the `min_roi` probe keeps the original
`max_risk`, so the two ladders do not compound: the suggested `toVal`
reaches the target when substituted alone into the original policy. -/
theorem counterfactual_fresh_probes (policy : Policy) (df : List Candidate) :
    ∀ s ∈ (counterfactual policy df).suggestions,
      (s.change = "max_risk" ∧ s.fromVal = policy.max_risk ∧
        ∃ step ∈ risk_steps,
          { policy with max_risk := s.toVal } = riskProbe policy step ∧
          max 3 (min policy.max_actions 8) ≤
            (eligCount df { policy with max_risk := s.toVal } : Int)) ∨
      (s.change = "min_roi" ∧ s.fromVal = policy.min_roi ∧
        ∃ step ∈ roi_steps,
          { policy with min_roi := s.toVal } = roiProbe policy step ∧
          max 3 (min policy.max_actions 8) ≤
            (eligCount df { policy with min_roi := s.toVal } : Int)) := by
  intro s hs
  simp only [counterfactual] at hs
  by_cases hok : max 3 (min policy.max_actions 8) ≤ (eligCount df policy : Int)
  · rw [if_pos hok] at hs
    simp at hs
  · rw [if_neg hok] at hs
    rcases riskSuggestions_cases policy df (max 3 (min policy.max_actions 8)) with
      h1 | ⟨st1, hst1, hc1, h1⟩ <;>
    rcases roiSuggestions_cases policy df (max 3 (min policy.max_actions 8)) with
      h2 | ⟨st2, hst2, hc2, h2⟩ <;>
    rw [h1, h2] at hs <;> simp at hs
    · subst hs
      exact Or.inr ⟨rfl, rfl, st2, hst2, rfl, hc2⟩
    · subst hs
      exact Or.inl ⟨rfl, rfl, st1, hst1, rfl, hc1⟩
    · rcases hs with rfl | rfl
      · exact Or.inl ⟨rfl, rfl, st1, hst1, rfl, hc1⟩
      · exact Or.inr ⟨rfl, rfl, st2, hst2, rfl, hc2⟩

def pFix : Policy :=
  { budget := 100000, max_risk := 57/100, min_roi := 0, max_actions := 3,
    risk_penalty := 0 }

def dfFix : List Candidate := [cfCand "A" (6/10) 1, cfCand "B" (6/10) 1, cfCand "C" (6/10) 1]

def sFix : Suggestion :=
  { change := "max_risk", fromVal := 57/100, toVal := 62/100,
    why := "Con max_risk relajado aparecen suficientes acciones elegibles." }

/-- C8 witness: the probe theorem instantiated on an input whose risk
ladder succeeds at the first step. -/
theorem counterfactual_fresh_probes_witness :
    sFix ∈ (counterfactual pFix dfFix).suggestions ∧
    ((sFix.change = "max_risk" ∧ sFix.fromVal = pFix.max_risk ∧
      ∃ step ∈ risk_steps,
        { pFix with max_risk := sFix.toVal } = riskProbe pFix step ∧
        max 3 (min pFix.max_actions 8) ≤
          (eligCount dfFix { pFix with max_risk := sFix.toVal } : Int)) ∨
    (sFix.change = "min_roi" ∧ sFix.fromVal = pFix.min_roi ∧
      ∃ step ∈ roi_steps,
        { pFix with min_roi := sFix.toVal } = roiProbe pFix step ∧
        max 3 (min pFix.max_actions 8) ≤
          (eligCount dfFix { pFix with min_roi := sFix.toVal } : Int))) :=
  ⟨by decide, counterfactual_fresh_probes pFix dfFix sFix (by decide)⟩

/-! ### Concrete knapsack inputs exhibiting the failures -/

def kCand (i : String) (cost : Nat) : Candidate :=
  { id := i, cost_clp := cost, benefit_score := 1, risk := 0, effort_days := 1,
    confidence := 1, roi := 1 }

def kSc (i : String) (cost : Nat) (sc : Rat) : ScoredCandidate :=
  { cand := kCand i cost, score := sc, eligible := true }

/-! ### Claim C1 -/

/-- C1 counterexample: with a (data-model-conformant) cost that is not a
multiple of the 1000-unit bucket, the discretization makes the item look
affordable and the sum of original costs of the returned selection
exceeds the budget: cost 1999 is selected under budget 1000. -/
theorem knapsack_select_cost_exceeds_budget :
    (knapsack_select [kSc "A" 1999 1] 1000 1).1 = [kSc "A" 1999 1] ∧
    (((knapsack_select [kSc "A" 1999 1] 1000 1).1.map
        (fun c => c.cand.cost_clp)).sum ≤ 1000) = False := by decide

/-! ### Claim C3 -/

/-- C3 counterexample: a single eligible candidate with the strictly
negative score `-1/10000` scales to the integer value
`trunc(-0.1) = 0`, so the scan accepts it (`0 ≥ 0`) and the selector
returns a non-empty selection whose total true score is negative. -/
theorem knapsack_select_small_negative_selected :
    (∀ c ∈ [kSc "A" 1000 (-1/10000)], c.eligible = true → c.score < 0) ∧
    (knapsack_select [kSc "A" 1000 (-1/10000)] 1000 1).1 ≠ [] ∧
    (knapsack_select [kSc "A" 1000 (-1/10000)] 1000 1).2.selected_score_sum < 0 := by decide

/-! ### Claim C2 -/

def dfC2 : List ScoredCandidate := [kSc "A" 1000 (5/1000), kSc "B" 1000 (7/1000)]

/-- C2: evaluation at the failing input.  Both candidates are eligible,
both fit together within budget 10000 and `max_items = 2` (the whole
input is a feasible subset with total scaled score `5 + 7 = 12`), yet
the code returns only candidate B with total scaled score 7: processing
B at level 0 overwrites `dp[1][1]` (5 → 7) after `dp[2][2]` was derived
from it, so the stale back-pointer walk yields index 1 twice and the
`isin` filter collapses it to a single row. -/
theorem knapsack_select_suboptimal_at_failing_input :
    (∀ c ∈ dfC2, c.eligible = true) ∧
    dfC2.length ≤ 2 ∧
    (dfC2.map (fun c => c.cand.cost_clp / 1000)).sum ≤ 10000 / 1000 ∧
    dfC2.filter (·.eligible) = dfC2 ∧
    (knapsack_select dfC2 10000 2).1 = [kSc "B" 1000 (7/1000)] ∧
    ((knapsack_select dfC2 10000 2).1.map (fun c => truncToInt (c.score * 1000))).sum = 7 ∧
    (dfC2.map (fun c => truncToInt (c.score * 1000))).sum = 12 := by decide

/-! ### Claim C7 -/

def dfC7 : List ScoredCandidate :=
  [kSc "P" 2000 (5/1000), kSc "Q" 2000 (7/1000), kSc "R" 1000 (20/1000),
   kSc "T" 1000 (4/1000)]

/-- C7: evaluation at the failing input.  Raising the budget from 4000
to 5000 (all other inputs fixed, distinct identifiers) makes the
returned total score drop from 31/1000 to 27/1000: at budget 5000 the
scan prefers the (stale) level-3 cell of scanned value 32 whose
back-pointer walk collapses to the two rows Q and R. -/
theorem knapsack_select_not_monotone_in_budget :
    (4000 : Nat) ≤ 5000 ∧
    ((dfC7.map (fun c => c.cand.id)).Nodup ∧
      (knapsack_select dfC7 4000 3).2.selected_score_sum = 31/1000 ∧
      (knapsack_select dfC7 5000 3).2.selected_score_sum = 27/1000) ∧
    (knapsack_select dfC7 5000 3).2.selected_score_sum
      < (knapsack_select dfC7 4000 3).2.selected_score_sum := by decide

/-! ### Generic facts about table and level access -/

theorem getD_set_ne (dp : DPTable) {i j : Nat} (x : Level) (h : i ≠ j) :
    (dp.set i x).getD j [] = dp.getD j [] := by
  simp [List.getD_eq_getElem?_getD, List.getElem?_set_ne h]

theorem getD_set (dp : DPTable) (i j : Nat) (x : Level) :
    (dp.set i x).getD j [] = dp.getD j [] ∨
      (i = j ∧ (dp.set i x).getD j [] = x) := by
  by_cases hij : i = j
  · subst hij
    by_cases hlen : i < dp.length
    · exact Or.inr ⟨rfl, by simp [List.getD_eq_getElem?_getD, List.getElem?_set_self hlen]⟩
    · exact Or.inl (by rw [List.set_eq_of_length_le (Nat.le_of_not_lt hlen)])
  · exact Or.inl (getD_set_ne dp x hij)

theorem mem_setCell {e : Nat × Cell} :
    ∀ {lv : Level} {b : Nat} {cell : Cell},
      e ∈ setCell lv b cell → e ∈ lv ∨ e = (b, cell) := by
  intro lv
  induction lv with
  | nil =>
    intro b cell h
    simp only [setCell, List.mem_singleton] at h
    exact Or.inr h
  | cons hd tl ih =>
    obtain ⟨b', cell'⟩ := hd
    intro b cell h
    simp only [setCell] at h
    split at h
    · rcases List.mem_cons.mp h with rfl | h
      · exact Or.inr rfl
      · exact Or.inl (List.mem_cons_of_mem _ h)
    · rcases List.mem_cons.mp h with rfl | h
      · exact Or.inl (List.mem_cons_self _ _)
      · rcases ih h with h | h
        · exact Or.inl (List.mem_cons_of_mem _ h)
        · exact Or.inr h

/-! ### All-negative scaled scores force the empty selection (claim C3) -/

/-- Every cell of level 0 has value at most 0 and every cell of a
positive level has strictly negative value. -/
def NegTable (dp : DPTable) : Prop :=
  (∀ e ∈ dp.getD 0 [], e.2.value ≤ 0) ∧
  (∀ k : Nat, ∀ e ∈ dp.getD (k+1) [], e.2.value < 0)

theorem relax_neg {B idx c : Nat} {v : Int} {k : Nat} {dp : DPTable} {bb : Nat × Cell}
    (hdp : NegTable dp) (hv : v < 0) (hbb : bb.2.value ≤ 0) :
    NegTable (relax B idx c v k dp bb) := by
  have hwrite : ∀ lvl' : Level,
      (∀ e ∈ lvl', e ∈ dp.getD (k+1) [] ∨ e.2.value < 0) →
      NegTable (dp.set (k+1) lvl') := by
    intro lvl' hlvl'
    constructor
    · intro e he
      rw [getD_set_ne dp lvl' (Nat.succ_ne_zero k)] at he
      exact hdp.1 e he
    · intro j e he
      rcases getD_set dp (k+1) (j+1) lvl' with heq | ⟨hj, heq⟩
      · rw [heq] at he
        exact hdp.2 j e he
      · rw [heq] at he
        rcases hlvl' e he with hmem | hneg
        · exact hdp.2 k e hmem
        · exact hneg
  simp only [relax]
  split
  · exact hdp
  · have hnv : bb.2.value + v < 0 := by omega
    split
    · split
      · refine hwrite _ (fun e he => ?_)
        rcases mem_setCell he with h | h
        · exact Or.inl h
        · subst h
          exact Or.inr hnv
      · exact hdp
    · refine hwrite _ (fun e he => ?_)
      rcases mem_setCell he with h | h
      · exact Or.inl h
      · subst h
        exact Or.inr hnv

theorem foldl_relax_neg {B idx c : Nat} {v : Int} {k : Nat} (hv : v < 0) :
    ∀ (snap : List (Nat × Cell)) (dp : DPTable), NegTable dp →
      (∀ e ∈ snap, e.2.value ≤ 0) →
      NegTable (snap.foldl (relax B idx c v k) dp) := by
  intro snap
  induction snap with
  | nil => intro dp hdp _; simpa
  | cons hd tl ih =>
    intro dp hdp hsnap
    rw [List.foldl_cons]
    exact ih _ (relax_neg hdp hv (hsnap hd (List.mem_cons_self _ _)))
      (fun e he => hsnap e (List.mem_cons_of_mem _ he))

theorem stepLevel_neg {B idx c : Nat} {v : Int} {k : Nat} {dp : DPTable}
    (hdp : NegTable dp) (hv : v < 0) :
    NegTable (stepLevel B idx c v dp k) := by
  rw [stepLevel]
  refine foldl_relax_neg hv _ dp hdp (fun e he => ?_)
  cases k with
  | zero => exact hdp.1 e he
  | succ k' => exact le_of_lt (hdp.2 k' e he)

theorem stepItem_neg {B mi idx c : Nat} {v : Int} {dp : DPTable}
    (hdp : NegTable dp) (hv : v < 0) :
    NegTable (stepItem B mi idx c v dp) := by
  rw [stepItem]
  have h : ∀ (ks : List Nat) (dp : DPTable), NegTable dp →
      NegTable (ks.foldl (stepLevel B idx c v) dp) := by
    intro ks
    induction ks with
    | nil => intro dp hdp; simpa
    | cons hd tl ih =>
      intro dp hdp
      rw [List.foldl_cons]
      exact ih _ (stepLevel_neg hdp hv)
  exact h _ dp hdp

theorem runItems_neg (B mi : Nat) :
    ∀ (idx : Nat) (items : List (Nat × Int)) (dp : DPTable),
      NegTable dp → (∀ cv ∈ items, cv.2 < 0) →
      NegTable (runItems B mi idx items dp) := by
  intro idx items
  induction items generalizing idx with
  | nil => intro dp hdp _; simpa [runItems]
  | cons hd tl ih =>
    intro dp hdp hv
    rw [runItems]
    exact ih (idx+1) _ (stepItem_neg hdp (hv hd (List.mem_cons_self _ _)))
      (fun cv hcv => hv cv (List.mem_cons_of_mem _ hcv))

theorem initTable_neg (mi : Nat) : NegTable (initTable mi) := by
  constructor
  · intro e he
    simp only [initTable, List.getD_eq_getElem?_getD] at he
    simp only [List.getElem?_cons_zero, Option.getD_some] at he
    rcases List.mem_singleton.mp he with rfl
    exact le_refl 0
  · intro k e he
    simp only [initTable, List.getD_eq_getElem?_getD, List.getElem?_cons_succ] at he
    rw [List.getElem?_replicate] at he
    split at he <;> simp at he

theorem bestCell_neg (mi : Nat) {dp : DPTable} (hdp : NegTable dp) :
    bestCell dp mi = (0, 0, -1) := by
  rw [bestCell]
  have hstep : ∀ k1 : Nat,
      (dp.getD (k1+1) []).foldl (fun (acc : Nat × Nat × Int) e =>
        if e.2.value > acc.2.2 then (k1+1, e.1, e.2.value) else acc) (0, 0, -1)
        = (0, 0, -1) := by
    intro k1
    have h := hdp.2 k1
    generalize dp.getD (k1+1) [] = lv at h
    induction lv with
    | nil => rfl
    | cons hd tl ih =>
      rw [List.foldl_cons,
        if_neg (show ¬ hd.2.value > -1 by
          have := h hd (List.mem_cons_self _ _); omega)]
      exact ih (fun e he => h e (List.mem_cons_of_mem _ he))
  have hfold : ∀ ks : List Nat,
      ks.foldl (fun (acc : Nat × Nat × Int) k1 =>
        (dp.getD (k1+1) []).foldl (fun (acc : Nat × Nat × Int) e =>
          if e.2.value > acc.2.2 then (k1+1, e.1, e.2.value) else acc) acc) (0, 0, -1)
        = (0, 0, -1) := by
    intro ks
    induction ks with
    | nil => rfl
    | cons hd tl ih =>
      simp only [List.foldl_cons]
      rw [hstep hd]
      exact ih
  exact hfold _

/-- C3 amended: if every eligible candidate's scaled integer score
`trunc(score * 1000)` is negative (in particular whenever every eligible
score is at most `-1/1000`), the selector returns the empty selection
with total score 0.  (As the counterexample shows, a score strictly
between `-1/1000` and `0` truncates to scaled value `0` and can be
selected.) -/
theorem knapsack_select_all_scaled_negative_empty (df : List ScoredCandidate)
    (budget mi : Nat)
    (hneg : ∀ c ∈ df, c.eligible = true → truncToInt (c.score * 1000) < 0) :
    (knapsack_select df budget mi).1 = [] ∧
    (knapsack_select df budget mi).2.selected_score_sum = 0 := by
  simp only [knapsack_select]
  split
  · exact ⟨rfl, rfl⟩
  · have hvals : ∀ cv ∈ ((df.filter (·.eligible)).map (fun c => c.cand.cost_clp / 1000)).zip
        ((df.filter (·.eligible)).map (fun c => truncToInt (c.score * 1000))), cv.2 < 0 := by
      intro cv hcv
      have h2 := List.of_mem_zip hcv
      rcases List.mem_map.mp h2.2 with ⟨c, hc, hceq⟩
      rw [← hceq]
      exact hneg c (List.mem_of_mem_filter hc) (List.of_mem_filter hc)
    have hbest := bestCell_neg mi
      (runItems_neg (budget / 1000) mi 0 _ (initTable mi) (initTable_neg mi) hvals)
    rw [hbest]
    norm_num

/-- C3 witness: a single eligible candidate of score `-1` (scaled value
`-1000 < 0`) yields the empty selection. -/
theorem knapsack_select_all_scaled_negative_empty_witness :
    (knapsack_select [kSc "A" 1000 (-1)] 1000 1).1 = [] ∧
    (knapsack_select [kSc "A" 1000 (-1)] 1000 1).2.selected_score_sum = 0 :=
  knapsack_select_all_scaled_negative_empty [kSc "A" 1000 (-1)] 1000 1 (by decide)

/-! ### The back-pointer chain invariant (claim C1) -/

theorem lookup_isSome_of_mem {lv : Level} {b : Nat} {cell : Cell}
    (h : (b, cell) ∈ lv) : (lv.lookup b).isSome := by
  induction lv with
  | nil => cases h
  | cons hd tl ih =>
    obtain ⟨b', cell'⟩ := hd
    rcases List.mem_cons.mp h with heq | hmem
    · cases heq
      simp [List.lookup]
    · simp only [List.lookup]
      split
      · simp
      · exact ih hmem

theorem lookup_setCell (lv : Level) (b : Nat) (cell : Cell) (b' : Nat) :
    (setCell lv b cell).lookup b' = if b' = b then some cell else lv.lookup b' := by
  induction lv with
  | nil =>
    by_cases h : b' = b
    · simp [setCell, List.lookup, show (b' == b) = true from beq_iff_eq.mpr h, h]
    · simp [setCell, List.lookup, show (b' == b) = false from beq_eq_false_iff_ne.mpr h, h]
  | cons hd tl ih =>
    obtain ⟨b0, cell0⟩ := hd
    simp only [setCell]
    by_cases h0 : b0 = b
    · subst h0
      by_cases h : b' = b0
      · simp [List.lookup, show (b' == b0) = true from beq_iff_eq.mpr h, h]
      · simp [List.lookup, show (b' == b0) = false from beq_eq_false_iff_ne.mpr h, h]
    · rw [if_neg h0]
      by_cases h : b' = b0
      · have hb : ¬ b' = b := fun hc => h0 (h.symm.trans hc)
        simp [List.lookup, show (b' == b0) = true from beq_iff_eq.mpr h, hb]
      · simp [List.lookup, show (b' == b0) = false from beq_eq_false_iff_ne.mpr h, ih]

/-- The invariant tying the table to the item list: every key of level 0
is the seeded 0; every cell of level `k+1` is within the discretized
budget and carries a back-pointer to an existing key of level `k`, one
item index, and the key arithmetic `b = pb + cost`. -/
structure ChainInv (items : List (Nat × Int)) (B : Nat) (dp : DPTable) : Prop where
  zero : ∀ b cell, (dp.getD 0 []).lookup b = some cell → b = 0
  succ : ∀ k b cell, (dp.getD (k+1) []).lookup b = some cell →
    b ≤ B ∧ ∃ pb idx cost v, cell.parent = some (k, pb, idx) ∧
      items[idx]? = some (cost, v) ∧ b = pb + cost ∧
      ((dp.getD k []).lookup pb).isSome

theorem relax_lookup_mono {B idx c : Nat} {v : Int} {k : Nat} (dp : DPTable)
    (bb : Nat × Cell) {j b' : Nat}
    (h : ((dp.getD j []).lookup b').isSome) :
    (((relax B idx c v k dp bb).getD j []).lookup b').isSome := by
  have hset : ∀ lvl' b1 cell1, lvl' = setCell (dp.getD (k+1) []) b1 cell1 →
      (((dp.set (k+1) lvl').getD j []).lookup b').isSome := by
    intro lvl' b1 cell1 hlvl'
    rcases getD_set dp (k+1) j lvl' with heq | ⟨hj, heq⟩
    · rw [heq]; exact h
    · rw [heq, hlvl', lookup_setCell]
      split
      · simp
      · rw [← hj] at h
        exact h
  simp only [relax]
  split
  · exact h
  · split
    · split
      · exact hset _ _ _ rfl
      · exact h
    · exact hset _ _ _ rfl

theorem relax_chain {items : List (Nat × Int)} {B idx c : Nat} {v : Int} {k : Nat}
    {dp : DPTable} {bb : Nat × Cell}
    (hinv : ChainInv items B dp)
    (hitem : items[idx]? = some (c, v))
    (hbb : bb ∈ dp.getD k []) :
    ChainInv items B (relax B idx c v k dp bb) := by
  obtain ⟨b0, cell0⟩ := bb
  have hpb : ((dp.getD k []).lookup b0).isSome := lookup_isSome_of_mem hbb
  have hwrite : ∀ nb, nb = b0 + c → ¬ nb > B → ∀ cellN, cellN.parent = some (k, b0, idx) →
      ChainInv items B (dp.set (k+1) (setCell (dp.getD (k+1) []) nb cellN)) := by
    intro nb hnb hnbB cellN hpar
    have hmono : ∀ j b', ((dp.getD j []).lookup b').isSome →
        (((dp.set (k+1) (setCell (dp.getD (k+1) []) nb cellN)).getD j []).lookup b').isSome := by
      intro j b' h
      rcases getD_set dp (k+1) j (setCell (dp.getD (k+1) []) nb cellN) with heq | ⟨hj, heq⟩
      · rw [heq]; exact h
      · rw [heq, lookup_setCell]
        split
        · simp
        · rw [← hj] at h
          exact h
    constructor
    · intro b cell hl
      rw [getD_set_ne dp _ (Nat.succ_ne_zero k)] at hl
      exact hinv.zero b cell hl
    · intro j b cell hl
      rcases getD_set dp (k+1) (j+1) (setCell (dp.getD (k+1) []) nb cellN) with heq | ⟨hj, heq⟩
      · rw [heq] at hl
        obtain ⟨hB, pb, idx', cost', v', hpar', hitem', hb, hsome⟩ := hinv.succ j b cell hl
        exact ⟨hB, pb, idx', cost', v', hpar', hitem', hb, hmono j pb hsome⟩
      · have hjk : j = k := by omega
        subst hjk
        rw [heq, lookup_setCell] at hl
        split at hl
        · next hbnb =>
          cases hl
          subst hbnb
          refine ⟨by omega, b0, idx, c, v, hpar, hitem, hnb, hmono j b0 hpb⟩
        · obtain ⟨hB, pb, idx', cost', v', hpar', hitem', hb, hsome⟩ := hinv.succ j b cell hl
          exact ⟨hB, pb, idx', cost', v', hpar', hitem', hb, hmono j pb hsome⟩
  simp only [relax]
  split
  · exact hinv
  · next hguard =>
    split
    · split
      · exact hwrite _ rfl hguard _ rfl
      · exact hinv
    · exact hwrite _ rfl hguard _ rfl

theorem relax_getD_ne {B idx c : Nat} {v : Int} {k : Nat} (dp : DPTable)
    (bb : Nat × Cell) {j : Nat} (hj : j ≠ k + 1) :
    (relax B idx c v k dp bb).getD j [] = dp.getD j [] := by
  simp only [relax]
  split
  · rfl
  · split
    · split
      · exact getD_set_ne dp _ (fun h => hj h.symm)
      · rfl
    · exact getD_set_ne dp _ (fun h => hj h.symm)

theorem foldl_relax_chain {items : List (Nat × Int)} {B idx c : Nat} {v : Int} {k : Nat}
    (hitem : items[idx]? = some (c, v)) (lv : Level) :
    ∀ (snap : List (Nat × Cell)) (dp : DPTable), ChainInv items B dp →
      dp.getD k [] = lv → (∀ bb ∈ snap, bb ∈ lv) →
      ChainInv items B (snap.foldl (relax B idx c v k) dp) := by
  intro snap
  induction snap with
  | nil => intro dp hdp _ _; simpa
  | cons hd tl ih =>
    intro dp hdp hlv hsnap
    rw [List.foldl_cons]
    refine ih _ (relax_chain hdp hitem (hlv ▸ hsnap hd (List.mem_cons_self _ _))) ?_
      (fun bb hbb => hsnap bb (List.mem_cons_of_mem _ hbb))
    rw [relax_getD_ne dp hd (by omega)]
    exact hlv

theorem stepLevel_chain {items : List (Nat × Int)} {B idx c : Nat} {v : Int} {k : Nat}
    {dp : DPTable} (hdp : ChainInv items B dp) (hitem : items[idx]? = some (c, v)) :
    ChainInv items B (stepLevel B idx c v dp k) := by
  rw [stepLevel]
  exact foldl_relax_chain hitem (dp.getD k []) _ dp hdp rfl (fun bb hbb => hbb)

theorem stepItem_chain {items : List (Nat × Int)} {B mi idx c : Nat} {v : Int}
    {dp : DPTable} (hdp : ChainInv items B dp) (hitem : items[idx]? = some (c, v)) :
    ChainInv items B (stepItem B mi idx c v dp) := by
  rw [stepItem]
  have h : ∀ (ks : List Nat) (dp : DPTable), ChainInv items B dp →
      ChainInv items B (ks.foldl (stepLevel B idx c v) dp) := by
    intro ks
    induction ks with
    | nil => intro dp hdp; simpa
    | cons hd tl ih =>
      intro dp hdp
      rw [List.foldl_cons]
      exact ih _ (stepLevel_chain hdp hitem)
  exact h _ dp hdp

theorem runItems_chain {items : List (Nat × Int)} (B mi : Nat) :
    ∀ (l : List (Nat × Int)) (idx : Nat) (dp : DPTable),
      ChainInv items B dp →
      (∀ m cv, l[m]? = some cv → items[idx + m]? = some cv) →
      ChainInv items B (runItems B mi idx l dp) := by
  intro l
  induction l with
  | nil => intro idx dp hdp _; simpa [runItems]
  | cons hd tl ih =>
    intro idx dp hdp hl
    rw [runItems]
    refine ih (idx+1) _ (stepItem_chain hdp ?_) (fun m cv hm => ?_)
    · have := hl 0 hd (by simp)
      simpa using this
    · have := hl (m+1) cv (by simpa using hm)
      rw [show idx + 1 + m = idx + (m + 1) by omega]
      exact this

theorem initTable_chain (items : List (Nat × Int)) (B mi : Nat) :
    ChainInv items B (initTable mi) := by
  constructor
  · intro b cell hl
    simp only [initTable, List.getD_eq_getElem?_getD, List.getElem?_cons_zero,
      Option.getD_some] at hl
    simp only [List.lookup] at hl
    split at hl
    · next h => simpa using h
    · cases hl
  · intro k b cell hl
    simp only [initTable, List.getD_eq_getElem?_getD, List.getElem?_cons_succ] at hl
    rw [List.getElem?_replicate] at hl
    split at hl <;> simp [List.lookup] at hl

theorem reconstructAux_spec {items : List (Nat × Int)} {B : Nat} {dp : DPTable}
    (hinv : ChainInv items B dp) :
    ∀ (k fuel b : Nat), k ≤ fuel → ((dp.getD k []).lookup b).isSome →
      (reconstructAux dp fuel k b).length = k ∧
      ((reconstructAux dp fuel k b).map (fun i => (items.getD i (0, 0)).1)).sum = b ∧
      ∀ i ∈ reconstructAux dp fuel k b, i < items.length := by
  intro k
  induction k with
  | zero =>
    intro fuel b _ hsome
    obtain ⟨cell, hcell⟩ := Option.isSome_iff_exists.mp hsome
    have hb := hinv.zero b cell hcell
    subst hb
    cases fuel <;> exact ⟨rfl, rfl, by intro i hi; cases hi⟩
  | succ k ihk =>
    intro fuel b hfuel hsome
    obtain ⟨fuel, rfl⟩ : ∃ f, fuel = f + 1 := by
      cases fuel
      · omega
      · exact ⟨_, rfl⟩
    obtain ⟨cell, hcell⟩ := Option.isSome_iff_exists.mp hsome
    obtain ⟨hB, pb, idx, cost, v, hpar, hitem, hb, hpbsome⟩ := hinv.succ k b cell hcell
    have hrec : reconstructAux dp (fuel + 1) (k + 1) b = idx :: reconstructAux dp fuel k pb := by
      simp only [reconstructAux, hcell, hpar]
    obtain ⟨ihlen, ihsum, ihmem⟩ := ihk fuel pb (by omega) hpbsome
    refine ⟨?_, ?_, ?_⟩
    · rw [hrec, List.length_cons, ihlen]
    · rw [hrec, List.map_cons, List.sum_cons, ihsum]
      have : (items.getD idx (0, 0)).1 = cost := by
        rw [List.getD_eq_getElem?_getD, hitem]
        rfl
      omega
    · intro i hi
      rw [hrec] at hi
      rcases List.mem_cons.mp hi with rfl | hi
      · have := List.getElem?_eq_some.mp hitem
        exact this.1
      · exact ihmem i hi

theorem bestCell_spec (dp : DPTable) (mi : Nat) :
    bestCell dp mi = (0, 0, -1) ∨
    (1 ≤ (bestCell dp mi).1 ∧ (bestCell dp mi).1 ≤ mi ∧
      ((dp.getD (bestCell dp mi).1 []).lookup (bestCell dp mi).2.1).isSome) := by
  rw [bestCell]
  have hgen : ∀ (ks : List Nat) (acc : Nat × Nat × Int),
      (∀ k1 ∈ ks, k1 < mi) →
      (acc = (0, 0, -1) ∨
        (1 ≤ acc.1 ∧ acc.1 ≤ mi ∧ ((dp.getD acc.1 []).lookup acc.2.1).isSome)) →
      (ks.foldl (fun acc k1 =>
          (dp.getD (k1+1) []).foldl (fun acc e =>
            if e.2.value > acc.2.2 then (k1+1, e.1, e.2.value) else acc) acc) acc
        = (0, 0, -1) ∨
        (1 ≤ (ks.foldl (fun acc k1 =>
          (dp.getD (k1+1) []).foldl (fun acc e =>
            if e.2.value > acc.2.2 then (k1+1, e.1, e.2.value) else acc) acc) acc).1 ∧
         (ks.foldl (fun acc k1 =>
          (dp.getD (k1+1) []).foldl (fun acc e =>
            if e.2.value > acc.2.2 then (k1+1, e.1, e.2.value) else acc) acc) acc).1 ≤ mi ∧
         ((dp.getD ((ks.foldl (fun acc k1 =>
          (dp.getD (k1+1) []).foldl (fun acc e =>
            if e.2.value > acc.2.2 then (k1+1, e.1, e.2.value) else acc) acc) acc).1) []).lookup
            ((ks.foldl (fun acc k1 =>
          (dp.getD (k1+1) []).foldl (fun acc e =>
            if e.2.value > acc.2.2 then (k1+1, e.1, e.2.value) else acc) acc) acc).2.1)).isSome)) := by
    intro ks
    induction ks with
    | nil => intro acc _ hacc; exact hacc
    | cons hd tl ih =>
      intro acc hks hacc
      simp only [List.foldl_cons]
      refine ih _ (fun k1 hk1 => hks k1 (List.mem_cons_of_mem _ hk1)) ?_
      have hhd : hd < mi := hks hd (List.mem_cons_self _ _)
      have hinner : ∀ (es : List (Nat × Cell)) (acc : Nat × Nat × Int),
          (∀ e ∈ es, e ∈ dp.getD (hd+1) []) →
          (acc = (0, 0, -1) ∨
            (1 ≤ acc.1 ∧ acc.1 ≤ mi ∧ ((dp.getD acc.1 []).lookup acc.2.1).isSome)) →
          (es.foldl (fun acc e =>
              if e.2.value > acc.2.2 then (hd+1, e.1, e.2.value) else acc) acc
            = (0, 0, -1) ∨
            (1 ≤ (es.foldl (fun acc e =>
              if e.2.value > acc.2.2 then (hd+1, e.1, e.2.value) else acc) acc).1 ∧
             (es.foldl (fun acc e =>
              if e.2.value > acc.2.2 then (hd+1, e.1, e.2.value) else acc) acc).1 ≤ mi ∧
             ((dp.getD ((es.foldl (fun acc e =>
              if e.2.value > acc.2.2 then (hd+1, e.1, e.2.value) else acc) acc).1) []).lookup
                ((es.foldl (fun acc e =>
              if e.2.value > acc.2.2 then (hd+1, e.1, e.2.value) else acc) acc).2.1)).isSome)) := by
        intro es
        induction es with
        | nil => intro acc _ hacc; exact hacc
        | cons e es ihe =>
          intro acc hes hacc
          simp only [List.foldl_cons]
          refine ihe _ (fun x hx => hes x (List.mem_cons_of_mem _ hx)) ?_
          by_cases hv : e.2.value > acc.2.2
          · rw [if_pos hv]
            refine Or.inr ⟨by omega, by omega, ?_⟩
            have hmem : e ∈ dp.getD (hd+1) [] := hes e (List.mem_cons_self _ _)
            obtain ⟨eb, ecell⟩ := e
            exact lookup_isSome_of_mem hmem
          · rw [if_neg hv]
            exact hacc
      exact hinner _ acc (fun e he => he) hacc
  exact hgen (List.range mi) (0, 0, -1) (fun k1 hk1 => List.mem_range.mp hk1) (Or.inl rfl)

/-! ### Identifier and sum bookkeeping for the selection -/

theorem find?_eq_self_of_nodup_keys :
    ∀ {l : List ScoredCandidate},
      (l.map (fun c => c.cand.id)).Nodup →
      ∀ c ∈ l, l.find? (fun x => x.cand.id == c.cand.id) = some c := by
  intro l
  induction l with
  | nil => intro _ c hc; cases hc
  | cons hd tl ih =>
    intro hnd c hc
    rw [List.map_cons, List.nodup_cons] at hnd
    rcases List.mem_cons.mp hc with rfl | hc
    · rw [List.find?_cons_of_pos _ (by simp)]
    · by_cases hbeq : hd.cand.id = c.cand.id
      · exact absurd (hbeq ▸ List.mem_map_of_mem _ hc) hnd.1
      · rw [List.find?_cons_of_neg _ (by simpa using hbeq)]
        exact ih hnd.2 c hc

theorem sublist_sum_le {l₁ l₂ : List Nat} (h : l₁.Sublist l₂) : l₁.sum ≤ l₂.sum := by
  induction h with
  | slnil => exact le_refl 0
  | cons a h ih => rw [List.sum_cons]; omega
  | cons₂ a h ih => rw [List.sum_cons, List.sum_cons]; omega

theorem subperm_sum_le {l₁ l₂ : List Nat} (h : List.Subperm l₁ l₂) :
    l₁.sum ≤ l₂.sum := by
  obtain ⟨u, hperm, hsub⟩ := h
  rw [← hperm.sum_eq]
  exact sublist_sum_le hsub

theorem subperm_map {α β : Type} (f : α → β) {l₁ l₂ : List α}
    (h : List.Subperm l₁ l₂) : List.Subperm (l₁.map f) (l₂.map f) := by
  obtain ⟨u, hperm, hsub⟩ := h
  exact ⟨u.map f, hperm.map f, hsub.map f⟩

/-- The discretized cost of the first candidate carrying a given
identifier (the quantity the id-based row filter recovers). -/
def costOfId (l : List ScoredCandidate) (s : String) : Nat :=
  ((l.find? (fun x => x.cand.id == s)).map (fun x => x.cand.cost_clp / 1000)).getD 0

theorem costOfId_eq {l : List ScoredCandidate}
    (hnd : (l.map (fun c => c.cand.id)).Nodup) (c : ScoredCandidate) (hc : c ∈ l) :
    costOfId l c.cand.id = c.cand.cost_clp / 1000 := by
  rw [costOfId, find?_eq_self_of_nodup_keys hnd c hc]
  rfl

/-- C1 amended: for candidate sets with distinct identifiers, the
selection returned by `knapsack_select` has at most `max_items`
elements, contains only eligible candidates, and its discretized costs
sum to at most `budget div 1000`; consequently its original costs sum to
at most the budget whenever every cost is a multiple of the 1000-unit
bucket (as the counterexample shows, not in general). -/
theorem knapsack_select_feasible (df : List ScoredCandidate) (budget mi : Nat)
    (hnd : (df.map (fun c => c.cand.id)).Nodup) :
    (knapsack_select df budget mi).1.length ≤ mi ∧
    (∀ c ∈ (knapsack_select df budget mi).1, c.eligible = true) ∧
    ((knapsack_select df budget mi).1.map (fun c => c.cand.cost_clp / 1000)).sum
      ≤ budget / 1000 ∧
    ((∀ c ∈ df, c.cand.cost_clp % 1000 = 0) →
      ((knapsack_select df budget mi).1.map (fun c => c.cand.cost_clp)).sum ≤ budget) := by
  simp only [knapsack_select]
  set cands := df.filter (fun x => x.eligible) with hcands
  set costs := cands.map (fun c => c.cand.cost_clp / 1000) with hcosts
  set values := cands.map (fun c => truncToInt (c.score * 1000)) with hvalues
  set ids := cands.map (fun c => c.cand.id) with hids
  set B := budget / 1000 with hB
  set items := costs.zip values with hitems
  set dp := runItems B mi 0 items (initTable mi) with hdp
  set best := bestCell dp mi with hbest
  split
  · exact ⟨by simp, by simp, by simp, fun _ => by simp⟩
  · split
    · exact ⟨by simp, by simp, by simp, fun _ => by simp⟩
    · next hbv =>
      set chain := reconstruct dp best.1 best.2.1 with hchain
      set chosen_ids := (chain.reverse).map (fun i => ids.getD i "") with hchosen
      set selected := cands.filter (fun c => chosen_ids.contains c.cand.id) with hselected
      set sorted := insertionSortBy (fun a b => decide (b.score ≤ a.score)) selected
        with hsorted
      have hinv : ChainInv items B dp := by
        rw [hdp]
        exact runItems_chain B mi items 0 (initTable mi) (initTable_chain items B mi)
          (fun m cv h => by simpa using h)
      have hbc := bestCell_spec dp mi
      rw [← hbest] at hbc
      rcases hbc with h0 | ⟨h1, h2, hsome⟩
      · rw [h0] at hbv
        exact absurd (by decide) hbv
      · rw [reconstruct] at hchain
        obtain ⟨hlen, hsumchain, hmemchain⟩ :=
          reconstructAux_spec hinv best.1 best.1 best.2.1 (le_refl _) hsome
        rw [← hchain] at hlen hsumchain hmemchain
        obtain ⟨cell, hcell⟩ := Option.isSome_iff_exists.mp hsome
        obtain ⟨j, hj⟩ : ∃ j, best.1 = j + 1 := ⟨best.1 - 1, by omega⟩
        rw [hj] at hcell
        have hbB : best.2.1 ≤ B := (hinv.succ j best.2.1 cell hcell).1
        have hndc : (cands.map (fun c => c.cand.id)).Nodup := by
          rw [hcands]
          exact List.Nodup.sublist (List.Sublist.map _ (List.filter_sublist df)) hnd
      -- facts about the selected rows
        have hsel_cands : ∀ c ∈ selected, c ∈ cands := by
          intro c hc
          rw [hselected] at hc
          exact List.mem_of_mem_filter hc
        have hsel_nodup : (selected.map (fun c => c.cand.id)).Nodup := by
          rw [hselected]
          exact List.Nodup.sublist (List.Sublist.map _ (List.filter_sublist _)) hndc
        have hsel_subset : (selected.map (fun c => c.cand.id)) ⊆ chosen_ids := by
          intro s hs
          rcases List.mem_map.mp hs with ⟨c, hc, rfl⟩
          rw [hselected] at hc
          have hcont := List.of_mem_filter hc
          simpa using hcont
        have hsubperm : List.Subperm (selected.map (fun c => c.cand.id)) chosen_ids :=
          List.Nodup.subperm hsel_nodup hsel_subset
        have hchosen_len : chosen_ids.length = best.1 := by
          rw [hchosen, List.length_map, List.length_reverse, hlen]
        have hcount : selected.length ≤ mi := by
          have hle := List.Subperm.length_le hsubperm
          rw [List.length_map, hchosen_len] at hle
          omega
        have hn : items.length = cands.length := by
          rw [hitems, hcosts, hvalues]
          simp
        have hchain_pt : ∀ i ∈ chain,
            costOfId cands (ids.getD i "") = (items.getD i (0, 0)).1 := by
          intro i hi
          have hilt : i < cands.length := by
            rw [← hn]
            exact hmemchain i hi
          have hci : cands[i]? = some cands[i] := List.getElem?_eq_getElem hilt
          have hidsi : ids.getD i "" = cands[i].cand.id := by
            rw [hids, List.getD_eq_getElem?_getD, List.getElem?_map, hci]
            rfl
          have hitemsi : items[i]? =
              some (cands[i].cand.cost_clp / 1000, truncToInt (cands[i].score * 1000)) := by
            rw [hitems]
            rw [List.getElem?_zip_eq_some]
            constructor
            · rw [hcosts, List.getElem?_map, hci]
              rfl
            · rw [hvalues, List.getElem?_map, hci]
              rfl
          rw [hidsi, costOfId_eq hndc cands[i] (List.getElem_mem hilt),
            List.getD_eq_getElem?_getD, hitemsi]
          rfl
        have hsum_chosen : (chosen_ids.map (costOfId cands)).sum = best.2.1 := by
          rw [hchosen, List.map_map]
          have hcongr : (chain.reverse).map (costOfId cands ∘ fun i => ids.getD i "")
              = (chain.reverse).map (fun i => (items.getD i (0, 0)).1) :=
            List.map_congr_left (fun i hi => hchain_pt i (List.mem_reverse.mp hi))
          rw [hcongr, List.map_reverse, List.sum_reverse]
          exact hsumchain
        have hsel_sum : (selected.map (fun c => c.cand.cost_clp / 1000)).sum ≤ B := by
          have hcongr2 : selected.map (fun c => c.cand.cost_clp / 1000)
              = (selected.map (fun c => c.cand.id)).map (costOfId cands) := by
            rw [List.map_map]
            exact List.map_congr_left
              (fun c hc => (costOfId_eq hndc c (hsel_cands c hc)).symm)
          rw [hcongr2]
          have hle := subperm_sum_le (subperm_map (costOfId cands) hsubperm)
          rw [hsum_chosen] at hle
          omega
        have hsorted_perm := insertionSortBy_perm
          (fun a b : ScoredCandidate => decide (b.score ≤ a.score)) selected
        rw [← hsorted] at hsorted_perm
        have hsorted_sum : (sorted.map (fun c => c.cand.cost_clp / 1000)).sum ≤ B := by
          rw [(hsorted_perm.map (fun c => c.cand.cost_clp / 1000)).sum_eq]
          exact hsel_sum
        refine ⟨?_, ?_, ?_, ?_⟩
        · show sorted.length ≤ mi
          rw [hsorted_perm.length_eq]
          exact hcount
        · intro c hc
          have hc' : c ∈ selected := hsorted_perm.mem_iff.mp hc
          have hcc := hsel_cands c hc'
          rw [hcands] at hcc
          simpa using List.of_mem_filter hcc
        · exact hsorted_sum
        · intro hmul
          show (sorted.map (fun c => c.cand.cost_clp)).sum ≤ budget
          have hpt : ∀ c ∈ sorted, c.cand.cost_clp = 1000 * (c.cand.cost_clp / 1000) := by
            intro c hc
            have hc' : c ∈ selected := hsorted_perm.mem_iff.mp hc
            have hcc := hsel_cands c hc'
            rw [hcands] at hcc
            have := hmul c (List.mem_of_mem_filter hcc)
            omega
          rw [List.map_congr_left hpt, List.sum_map_mul_left]
          have hmulle := Nat.mul_le_mul_left 1000 hsorted_sum
          have hfin : 1000 * B ≤ budget := by
            rw [hB, Nat.mul_comm]
            exact Nat.div_mul_le_self budget 1000
          omega

/-- C1 witness: the amended feasibility theorem instantiated on a
two-candidate input with bucket-multiple costs. -/
theorem knapsack_select_feasible_witness :
    (knapsack_select dfC2 10000 2).1.length ≤ 2 ∧
    (∀ c ∈ (knapsack_select dfC2 10000 2).1, c.eligible = true) ∧
    ((knapsack_select dfC2 10000 2).1.map (fun c => c.cand.cost_clp / 1000)).sum
      ≤ 10000 / 1000 ∧
    ((∀ c ∈ dfC2, c.cand.cost_clp % 1000 = 0) →
      ((knapsack_select dfC2 10000 2).1.map (fun c => c.cand.cost_clp)).sum ≤ 10000) :=
  knapsack_select_feasible dfC2 10000 2 (by decide)

end DecisionIntel
